import Mathlib

set_option maxHeartbeats 2000000
set_option maxRecDepth 8000

/-! Shallow embedding of the promptwire-tools serverless handlers:
the JSON repair pipeline of src/unnamed/part_001 together with the
response-shaping logic of src/api/gemini.js and src/unnamed/part_000.
JavaScript strings are modelled as lists of characters. -/

abbrev Str := List Char

/-! ## JSON Object Extractor (src/unnamed/part_001, extractJsonObject) -/

/-- Index of the first occurrence of a character, as in String.prototype.indexOf. -/
def firstIdx (c : Char) : Str → Option Nat
  | [] => none
  | x :: xs => if x = c then some 0 else (firstIdx c xs).map (· + 1)

/-- Index of the last occurrence of a character, as in String.prototype.lastIndexOf. -/
def lastIdx (c : Char) : Str → Option Nat
  | [] => none
  | x :: xs =>
    match lastIdx c xs with
    | some i => some (i + 1)
    | none => if x = c then some 0 else none

/-- Embeds extractJsonObject: the inclusive slice from the first open brace
through the last close brace, or none when either is missing or the close
does not strictly follow the open. -/
def extractJsonObject (text : Str) : Option Str :=
  match firstIdx '{' text, lastIdx '}' text with
  | some s, some e => if e ≤ s then none else some ((text.drop s).take (e + 1 - s))
  | _, _ => none

/-! ## Breaker Sanitizer (src/unnamed/part_001, sanitizeCommonBreakers) -/

/-- Characters matched by the JavaScript regular-expression class backslash-s. -/
def isJsWs (c : Char) : Bool :=
  c = ' ' || c = '\t' || c = '\n' || c = '\r' || c = '\x0b' || c = '\x0c' ||
  c = '\u00a0' || c = '\u1680' || (0x2000 ≤ c.toNat && c.toNat ≤ 0x200a) ||
  c = '\u2028' || c = '\u2029' || c = '\u202f' || c = '\u205f' || c = '\u3000' ||
  c = '\ufeff'

/-- Drops the longest run of JavaScript whitespace from the front. -/
def dropJsWs : Str → Str
  | [] => []
  | c :: rest => if isJsWs c then dropJsWs rest else c :: rest

/-- Replaces every occurrence of the target character by the two-character
sequence backslash-n, as the global regex replace in the source does. -/
def replaceWithBackslashN (target : Char) : Str → Str
  | [] => []
  | c :: rest =>
    if c = target then '\\' :: 'n' :: replaceWithBackslashN target rest
    else c :: replaceWithBackslashN target rest

/-- Detects a closing structural character at the head of a list. -/
def closerTail : Str → Option (Char × Str)
  | b :: rest => if b = '}' || b = ']' then some (b, rest) else none
  | [] => none

/-- Fueled one-pass scan that performs the global replace of the regex
comma, whitespace-star, closing brace-or-bracket by the captured closer.
The fuel is only a termination device; an input of length n needs at
most n steps. -/
def rtcF : Nat → Str → Str
  | 0, l => l
  | _ + 1, [] => []
  | n + 1, c :: rest =>
    if c = ',' then
      match closerTail (dropJsWs rest) with
      | some (b, rest2) => b :: rtcF n rest2
      | none => c :: rtcF n rest
    else c :: rtcF n rest

/-- Embeds the trailing-comma removal regex replace of sanitizeCommonBreakers. -/
def removeTrailingCommas (l : Str) : Str := rtcF l.length l

/-- Embeds sanitizeCommonBreakers: replace U+2028 and U+2029 by literal
backslash-n, then remove trailing commas before closing braces/brackets. -/
def sanitizeCommonBreakers (s : Str) : Str :=
  removeTrailingCommas (replaceWithBackslashN '\u2029' (replaceWithBackslashN '\u2028' s))

/-! ## String-Context Scanner / Escaper (src/unnamed/part_001, escapeNewlinesInsideStrings) -/

/-- One left-to-right pass with the two state flags inString and escaped,
exactly mirroring the loop body of escapeNewlinesInsideStrings. -/
def escNL : Str → Bool → Bool → Str
  | [], _, _ => []
  | ch :: rest, inString, escaped =>
    if inString then
      if escaped then ch :: escNL rest inString false
      else if ch = '\\' then ch :: escNL rest inString true
      else if ch = '"' then ch :: escNL rest false escaped
      else if ch = '\n' then '\\' :: 'n' :: escNL rest inString escaped
      else if ch = '\r' then escNL rest inString escaped
      else if ch = '\t' then '\\' :: 't' :: escNL rest inString escaped
      else ch :: escNL rest inString escaped
    else
      if ch = '"' then ch :: escNL rest true escaped
      else ch :: escNL rest inString escaped

/-- Embeds escapeNewlinesInsideStrings, starting outside any string. -/
def escapeNewlinesInsideStrings (jsonStr : Str) : Str := escNL jsonStr false false

/-! ## Strict JSON parser, modelling the JSON.parse grammar of ECMA-404.
Numbers are kept as their source lexemes; string escapes are decoded. -/

/-- JSON values as produced by the strict parser. -/
inductive Json where
  | nullV : Json
  | boolV : Bool → Json
  | numV : Str → Json
  | strV : Str → Json
  | arrV : List Json → Json
  | objV : List (Str × Json) → Json

/-- JSON insignificant whitespace. -/
def isWs (c : Char) : Bool :=
  c = ' ' || c = '\t' || c = '\n' || c = '\r'

/-- Skips JSON whitespace. -/
def skipWs : Str → Str
  | [] => []
  | c :: rest => if isWs c then skipWs rest else c :: rest

/-- Value of a hexadecimal digit. -/
def hexVal (c : Char) : Option Nat :=
  if 48 ≤ c.toNat ∧ c.toNat ≤ 57 then some (c.toNat - 48)
  else if 97 ≤ c.toNat ∧ c.toNat ≤ 102 then some (c.toNat - 87)
  else if 65 ≤ c.toNat ∧ c.toNat ≤ 70 then some (c.toNat - 55)
  else none

/-- Decoding of a simple backslash escape inside a JSON string. -/
def escChar (c : Char) : Option Char :=
  if c = '"' then some '"'
  else if c = '\\' then some '\\'
  else if c = '/' then some '/'
  else if c = 'b' then some '\x08'
  else if c = 'f' then some '\x0c'
  else if c = 'n' then some '\n'
  else if c = 'r' then some '\r'
  else if c = 't' then some '\t'
  else none

/-- Parses the body of a JSON string after the opening quote, returning the
decoded contents together with the input remaining after the closing quote. -/
def parseStringBody : Nat → Str → Option (Str × Str)
  | 0, _ => none
  | _ + 1, [] => none
  | fl + 1, c :: rest =>
    if c = '"' then some ([], rest)
    else if c = '\\' then
      match rest with
      | [] => none
      | e :: rest2 =>
        if e = 'u' then
          match rest2 with
          | h1 :: h2 :: h3 :: h4 :: rest3 =>
            match hexVal h1, hexVal h2, hexVal h3, hexVal h4 with
            | some a, some b, some c2, some d =>
              match parseStringBody fl rest3 with
              | some (tail, r) => some (Char.ofNat (((a * 16 + b) * 16 + c2) * 16 + d) :: tail, r)
              | none => none
            | _, _, _, _ => none
          | _ => none
        else
          match escChar e with
          | some d =>
            match parseStringBody fl rest2 with
            | some (tail, r) => some (d :: tail, r)
            | none => none
          | none => none
    else if c.toNat < 32 then none
    else
      match parseStringBody fl rest with
      | some (tail, r) => some (c :: tail, r)
      | none => none

/-- Decimal digit test for the JSON number grammar. -/
def isDigitCh (c : Char) : Bool := 48 ≤ c.toNat && c.toNat ≤ 57

/-- Optional leading minus sign of a JSON number. -/
def numberSign : Str → Str × Str
  | [] => ([], [])
  | c :: r => if c = '-' then ([c], r) else ([], c :: r)

/-- Integer part of a JSON number: a single zero, or a nonzero digit
followed by digits. -/
def parseIntPart : Str → Option (Str × Str)
  | [] => none
  | c :: rest =>
    if c = '0' then some ([c], rest)
    else if isDigitCh c then
      some (c :: rest.takeWhile isDigitCh, rest.dropWhile isDigitCh)
    else none

/-- Optional fraction part: a dot followed by at least one digit. -/
def parseFracPart : Str → Option (Str × Str)
  | [] => some ([], [])
  | c :: rest =>
    if c = '.' then
      match rest with
      | [] => none
      | d :: _ =>
        if isDigitCh d then some (c :: rest.takeWhile isDigitCh, rest.dropWhile isDigitCh)
        else none
    else some ([], c :: rest)

/-- Optional exponent part: e or E, an optional sign, at least one digit. -/
def parseExpPart : Str → Option (Str × Str)
  | [] => some ([], [])
  | c :: rest =>
    if c = 'e' || c = 'E' then
      match rest with
      | [] => none
      | s :: r1 =>
        if s = '+' || s = '-' then
          match r1 with
          | [] => none
          | d :: _ =>
            if isDigitCh d then some (c :: s :: r1.takeWhile isDigitCh, r1.dropWhile isDigitCh)
            else none
        else
          if isDigitCh s then some (c :: (s :: r1).takeWhile isDigitCh, (s :: r1).dropWhile isDigitCh)
          else none
    else some ([], c :: rest)

/-- Parses a JSON number, returning its lexeme and the remaining input. -/
def parseNumber (l : Str) : Option (Str × Str) :=
  match parseIntPart (numberSign l).2 with
  | none => none
  | some (ip, l2) =>
    match parseFracPart l2 with
    | none => none
    | some (fp, l3) =>
      match parseExpPart l3 with
      | none => none
      | some (ep, r) => some ((numberSign l).1 ++ ip ++ fp ++ ep, r)

mutual

/-- Parses one JSON value after skipping leading whitespace. -/
def parseVal : Nat → Str → Option (Json × Str)
  | 0, _ => none
  | fuel + 1, l =>
    match skipWs l with
    | [] => none
    | c :: rest =>
      if c = '"' then
        match parseStringBody (rest.length + 1) rest with
        | some (content, r) => some (Json.strV content, r)
        | none => none
      else if c = '{' then
        match skipWs rest with
        | '}' :: r => some (Json.objV [], r)
        | r1 =>
          match parseMembers fuel r1 with
          | some (kvs, r) => some (Json.objV kvs, r)
          | none => none
      else if c = '[' then
        match skipWs rest with
        | ']' :: r => some (Json.arrV [], r)
        | r1 =>
          match parseElems fuel r1 with
          | some (vs, r) => some (Json.arrV vs, r)
          | none => none
      else if c = 't' then
        match rest with
        | 'r' :: 'u' :: 'e' :: r => some (Json.boolV true, r)
        | _ => none
      else if c = 'f' then
        match rest with
        | 'a' :: 'l' :: 's' :: 'e' :: r => some (Json.boolV false, r)
        | _ => none
      else if c = 'n' then
        match rest with
        | 'u' :: 'l' :: 'l' :: r => some (Json.nullV, r)
        | _ => none
      else
        match parseNumber (c :: rest) with
        | some (lit, r) => some (Json.numV lit, r)
        | none => none

/-- Parses the nonempty member list of a JSON object, consuming the
closing brace. -/
def parseMembers : Nat → Str → Option (List (Str × Json) × Str)
  | 0, _ => none
  | fuel + 1, l =>
    match skipWs l with
    | '"' :: rest =>
      match parseStringBody (rest.length + 1) rest with
      | some (key, r1) =>
        match skipWs r1 with
        | ':' :: r2 =>
          match parseVal fuel r2 with
          | some (v, r3) =>
            match skipWs r3 with
            | ',' :: r4 =>
              match parseMembers fuel r4 with
              | some (kvs, r5) => some ((key, v) :: kvs, r5)
              | none => none
            | '}' :: r4 => some ([(key, v)], r4)
            | _ => none
          | none => none
        | _ => none
      | none => none
    | _ => none

/-- Parses the nonempty element list of a JSON array, consuming the
closing bracket. -/
def parseElems : Nat → Str → Option (List Json × Str)
  | 0, _ => none
  | fuel + 1, l =>
    match parseVal fuel l with
    | some (v, r1) =>
      match skipWs r1 with
      | ',' :: r2 =>
        match parseElems fuel r2 with
        | some (vs, r3) => some (v :: vs, r3)
        | none => none
      | ']' :: r2 => some ([v], r2)
      | _ => none
    | none => none

end


/-- Strict JSON parse of a whole text, modelling JSON.parse: one value,
possibly surrounded by whitespace, and nothing else. -/
def parseJson (s : Str) : Option Json :=
  match parseVal (2 * s.length + 2) s with
  | some (v, r) =>
    match skipWs r with
    | [] => some v
    | _ => none
  | none => none

/-- The scanner copies this block verbatim when started outside a string
and ends outside a string again. -/
def OutsideCopies (p : Str) : Prop :=
  ∀ t : Str, escNL (p ++ t) false false = p ++ escNL t false false

/-- The scanner copies this block verbatim when started inside a string
just after the opening quote, and ends outside a string: the block is a
string body including its closing quote. -/
def StrBodyCopies (p : Str) : Prop :=
  ∀ t : Str, escNL (p ++ t) true false = p ++ escNL t false false

/-! ## Counting facts for the trailing-comma removal -/

/-- Number of commas in the input that the trailing-comma regex matches:
commas followed by JavaScript whitespace only and then a closing brace
or bracket. -/
def trailingCommaCount : Str → Nat
  | [] => 0
  | c :: rest =>
    (if c = ',' then (if (closerTail (dropJsWs rest)).isSome then 1 else 0) else 0) +
      trailingCommaCount rest

/-! ## Repair pipeline outcome and handler models -/

/-- Outcome of the server-side repair attempt in the part_001 handler:
either the strictly parsed value, or the fallback carrying the raw text. -/
inductive RepairOutcome where
  | parsed (v : Json)
  | fallback (raw : Str)

/-- Embeds the repair pipeline of the part_001 handler, lines 154 to 176:
extract a candidate object, sanitize it, escape in-string newlines, then
strictly parse; any failure degrades to the fallback with the raw text. -/
def repairOutcome (rawText : Str) : RepairOutcome :=
  match extractJsonObject rawText with
  | none => RepairOutcome.fallback rawText
  | some candidateJson =>
    match parseJson (escapeNewlinesInsideStrings (sanitizeCommonBreakers candidateJson)) with
    | some parsed => RepairOutcome.parsed parsed
    | none => RepairOutcome.fallback rawText

/-- Response bodies produced by the three handlers. -/
inductive RespBody where
  | errMsg (s : String)
  | vendorErr (e : String)
  | envelope (text : Str)
  | parsedJson (v : Json)

/-- An HTTP response as constructed by the handlers. -/
structure HttpResponse where
  status : Nat
  headers : List (String × String)
  body : Option RespBody

/-- Behavior of the awaited upstream interaction: either an exception was
thrown somewhere in the try block, or the vendor returned a decoded body. -/
inductive UpBehavior (α : Type) where
  | threw (msg : String)
  | ok (data : α)

/-- Message object of a Groq completion choice. -/
structure GroqMessage where
  content : Option Str

/-- One Groq completion choice. -/
structure GroqChoice where
  message : Option GroqMessage

/-- Decoded Groq response body. -/
structure GroqData where
  error : Option String
  choices : Option (List GroqChoice)

/-- Embeds the rawText extraction of part_001 line 150: the optional chain
choices 0 message content with empty-string default. -/
def groqRawText (d : GroqData) : Str :=
  match d.choices with
  | some (c :: _) =>
    match c.message with
    | some m => m.content.getD []
    | none => []
  | _ => []

/-- One part of a Gemini candidate content. -/
structure GPart where
  text : Option Str

/-- Content of a Gemini candidate. -/
structure GContent where
  parts : Option (List GPart)

/-- One Gemini candidate. -/
structure GCandidate where
  content : Option GContent

/-- Decoded Gemini response body. -/
structure GeminiData where
  error : Option String
  candidates : Option (List GCandidate)

/-- Embeds the parts lookup of src/api/gemini.js line 67: the optional
chain candidates 0 content parts with empty-array default. -/
def candidateParts (d : GeminiData) : List GPart :=
  match d.candidates with
  | some (c :: _) =>
    match c.content with
    | some ct => ct.parts.getD []
    | none => []
  | _ => []

/-- Embeds the text computation of src/api/gemini.js line 68: map each part
to its text or the empty string and join with no separator. -/
def geminiJsText (d : GeminiData) : Str :=
  ((candidateParts d).map fun p => p.text.getD []).flatten

/-- Embeds the text computation of src/unnamed/part_000 line 57: the
optional chain candidates 0 content parts 0 text with empty default. -/
def gemini0Text (d : GeminiData) : Str :=
  match d.candidates with
  | some (c :: _) =>
    match c.content with
    | some ct =>
      match ct.parts with
      | some (p :: _) => p.text.getD []
      | _ => []
    | none => []
  | _ => []

/-- Spec-side description of the Gemini success text: the concatenation of
the text fields of all parts in order with no separator, a missing text
field contributing the empty string. -/
def concatPartsSpec : List GPart → Str
  | [] => []
  | p :: ps => p.text.getD [] ++ concatPartsSpec ps

/-- Text of the first part, or empty when there is none. -/
def headTextD : List GPart → Str
  | [] => []
  | p :: _ => p.text.getD []

/-- Embeds the part_001 handler's method dispatch, headers and bodies. -/
def part001Handler (method : String) (up : UpBehavior GroqData) : HttpResponse :=
  if method = "OPTIONS" then
    { status := 200
      headers := [("Access-Control-Allow-Origin", "*"),
        ("Access-Control-Allow-Methods", "POST, OPTIONS"),
        ("Access-Control-Allow-Headers", "Content-Type")]
      body := none }
  else if ¬ method = "POST" then
    { status := 405
      headers := [("Content-Type", "application/json"),
        ("Access-Control-Allow-Origin", "*")]
      body := some (RespBody.errMsg "Method not allowed") }
  else
    match up with
    | UpBehavior.threw msg =>
      { status := 500
        headers := [("Content-Type", "application/json"),
          ("Access-Control-Allow-Origin", "*")]
        body := some (RespBody.errMsg msg) }
    | UpBehavior.ok data =>
      match data.error with
      | some e =>
        { status := 400
          headers := [("Content-Type", "application/json"),
            ("Access-Control-Allow-Origin", "*")]
          body := some (RespBody.vendorErr e) }
      | none =>
        match repairOutcome (groqRawText data) with
        | RepairOutcome.parsed v =>
          { status := 200
            headers := [("Content-Type", "application/json"),
              ("Access-Control-Allow-Origin", "*")]
            body := some (RespBody.parsedJson v) }
        | RepairOutcome.fallback raw =>
          { status := 200
            headers := [("Content-Type", "application/json"),
              ("Access-Control-Allow-Origin", "*")]
            body := some (RespBody.envelope raw) }

/-- Embeds the src/api/gemini.js handler's method dispatch, headers and
bodies; note the 405 response carries only the Content-Type header. -/
def geminiJsHandler (method : String) (up : UpBehavior GeminiData) : HttpResponse :=
  if method = "OPTIONS" then
    { status := 200
      headers := [("Access-Control-Allow-Origin", "*"),
        ("Access-Control-Allow-Methods", "POST, OPTIONS"),
        ("Access-Control-Allow-Headers", "Content-Type")]
      body := none }
  else if ¬ method = "POST" then
    { status := 405
      headers := [("Content-Type", "application/json")]
      body := some (RespBody.errMsg "Method not allowed") }
  else
    match up with
    | UpBehavior.threw msg =>
      { status := 500
        headers := [("Content-Type", "application/json"),
          ("Access-Control-Allow-Origin", "*")]
        body := some (RespBody.errMsg msg) }
    | UpBehavior.ok d =>
      match d.error with
      | some e =>
        { status := 400
          headers := [("Content-Type", "application/json"),
            ("Access-Control-Allow-Origin", "*")]
          body := some (RespBody.vendorErr e) }
      | none =>
        { status := 200
          headers := [("Content-Type", "application/json"),
            ("Access-Control-Allow-Origin", "*")]
          body := some (RespBody.envelope (geminiJsText d)) }

/-- Embeds the src/unnamed/part_000 handler: same shape as the gemini.js
variant but the success text takes only the first part. -/
def part000Handler (method : String) (up : UpBehavior GeminiData) : HttpResponse :=
  if method = "OPTIONS" then
    { status := 200
      headers := [("Access-Control-Allow-Origin", "*"),
        ("Access-Control-Allow-Methods", "POST, OPTIONS"),
        ("Access-Control-Allow-Headers", "Content-Type")]
      body := none }
  else if ¬ method = "POST" then
    { status := 405
      headers := [("Content-Type", "application/json")]
      body := some (RespBody.errMsg "Method not allowed") }
  else
    match up with
    | UpBehavior.threw msg =>
      { status := 500
        headers := [("Content-Type", "application/json"),
          ("Access-Control-Allow-Origin", "*")]
        body := some (RespBody.errMsg msg) }
    | UpBehavior.ok d =>
      match d.error with
      | some e =>
        { status := 400
          headers := [("Content-Type", "application/json"),
            ("Access-Control-Allow-Origin", "*")]
          body := some (RespBody.vendorErr e) }
      | none =>
        { status := 200
          headers := [("Content-Type", "application/json"),
            ("Access-Control-Allow-Origin", "*")]
          body := some (RespBody.envelope (gemini0Text d)) }

/-- Both headers the spec says every response carries. -/
def hasBothHeaders (r : HttpResponse) : Prop :=
  ("Content-Type", "application/json") ∈ r.headers ∧
    ("Access-Control-Allow-Origin", "*") ∈ r.headers

/-! ## Concrete example inputs from the spec -/

/-- The spec's newline example: a one-key object whose value contains a
raw newline byte inside the quotes. -/
def exNewline : Str :=
  ['{', '"', 'a', '"', ':', ' ', '"', 'l', 'i', 'n', 'e', '1', '\n',
   'l', 'i', 'n', 'e', '2', '"', '}']

/-- The repaired form of exNewline with the newline escaped. -/
def exNewlineOut : Str :=
  ['{', '"', 'a', '"', ':', ' ', '"', 'l', 'i', 'n', 'e', '1', '\\', 'n',
   'l', 'i', 'n', 'e', '2', '"', '}']

/-- The spec's escaped-quote example: he said, quote, hi, quote, inside a
string, with backslash escapes. -/
def exEscQuote : Str :=
  ['{', '"', 'a', '"', ':', ' ', '"', 'h', 'e', ' ', 's', 'a', 'i', 'd', ' ',
   '\\', '"', 'h', 'i', '\\', '"', '"', '}']

/-- The spec's trailing-comma example input. -/
def exTrailing : Str := ['{', '"', 'a', '"', ':', ' ', '1', ',', '}']

/-- The spec's trailing-comma example output. -/
def exTrailingOut : Str := ['{', '"', 'a', '"', ':', ' ', '1', '}']

/-- A valid JSON array whose single string element contains a comma
directly followed by a closing bracket. -/
def exRound : Str := ['[', '"', 'a', ',', ']', '"', ']']

/-- The spec's irregular-whitespace example. -/
def exWs : Str :=
  ['{', ' ', ' ', '"', 'a', '"', ' ', ' ', ':', ' ', ' ', '1', ' ', ' ', '}']

/-- A successful Gemini response with two parts. -/
def exGemini : GeminiData :=
  GeminiData.mk none (some [GCandidate.mk (some (GContent.mk (some
    [GPart.mk (some ['A']), GPart.mk (some ['B'])])))])

/-! ## Theorems -/

theorem dropJsWs_length (l : Str) : (dropJsWs l).length ≤ l.length := by
  induction l with
  | nil => simp [dropJsWs]
  | cons c rest ih =>
    simp only [dropJsWs]
    split
    · exact Nat.le_succ_of_le ih
    · simp

theorem closerTail_some {l : Str} {b : Char} {r : Str}
    (h : closerTail l = some (b, r)) : l = b :: r ∧ (b = '}' ∨ b = ']') := by
  cases l with
  | nil => simp [closerTail] at h
  | cons x xs =>
    simp only [closerTail] at h
    split at h
    · rename_i hb
      obtain ⟨h1, h2⟩ := Option.some.injEq _ _ ▸ h
      cases h
      refine ⟨rfl, ?_⟩
      rcases Bool.or_eq_true_iff.mp hb with h | h
      · exact Or.inl (by simpa using h)
      · exact Or.inr (by simpa using h)
    · cases h

/-! ## Step lemmas for the scanner state machine -/

theorem escNL_out_cons (c : Char) (rest : Str) (e : Bool) (h : ¬ c = '"') :
    escNL (c :: rest) false e = c :: escNL rest false e := by
  simp [escNL, h]

theorem escNL_out_quote (rest : Str) (e : Bool) :
    escNL ('"' :: rest) false e = '"' :: escNL rest true e := by
  simp [escNL]

theorem escNL_in_esc (c : Char) (rest : Str) :
    escNL (c :: rest) true true = c :: escNL rest true false := by
  simp [escNL]

theorem escNL_in_backslash (rest : Str) :
    escNL ('\\' :: rest) true false = '\\' :: escNL rest true true := by
  simp [escNL]

theorem escNL_in_quote (rest : Str) :
    escNL ('"' :: rest) true false = '"' :: escNL rest false false := by
  simp [escNL]

theorem escNL_in_nl (rest : Str) :
    escNL ('\n' :: rest) true false = '\\' :: 'n' :: escNL rest true false := by
  simp [escNL]

theorem escNL_in_cr (rest : Str) :
    escNL ('\r' :: rest) true false = escNL rest true false := by
  simp [escNL]

theorem escNL_in_tab (rest : Str) :
    escNL ('\t' :: rest) true false = '\\' :: 't' :: escNL rest true false := by
  simp [escNL]

theorem escNL_in_ord (c : Char) (rest : Str) (h1 : ¬ c = '\\') (h2 : ¬ c = '"')
    (h3 : ¬ c = '\n') (h4 : ¬ c = '\r') (h5 : ¬ c = '\t') :
    escNL (c :: rest) true false = c :: escNL rest true false := by
  simp [escNL, h1, h2, h3, h4, h5]

theorem outsideCopies_nil : OutsideCopies [] := fun _ => rfl

theorem outsideCopies_append {p q : Str} (h1 : OutsideCopies p) (h2 : OutsideCopies q) :
    OutsideCopies (p ++ q) := by
  intro t
  rw [List.append_assoc, h1, h2, List.append_assoc]

theorem outsideCopies_cons {c : Char} {p : Str} (h : ¬ c = '"') (hp : OutsideCopies p) :
    OutsideCopies (c :: p) := by
  intro t
  rw [List.cons_append, escNL_out_cons _ _ _ h, hp, List.cons_append]

theorem outsideCopies_of_ne_quote {p : Str} (h : ∀ c ∈ p, ¬ c = '"') :
    OutsideCopies p := by
  induction p with
  | nil => exact outsideCopies_nil
  | cons c p ih =>
    exact outsideCopies_cons (h c (List.mem_cons_self c p))
      (ih fun d hd => h d (List.mem_cons_of_mem c hd))

theorem outsideCopies_quote {p : Str} (h : StrBodyCopies p) :
    OutsideCopies ('"' :: p) := by
  intro t
  rw [List.cons_append, escNL_out_quote, h, List.cons_append]

theorem strBodyCopies_quote : StrBodyCopies ['"'] := by
  intro t
  rw [List.cons_append, List.nil_append, escNL_in_quote]
  rfl

theorem strBodyCopies_cons {c : Char} {p : Str} (h1 : ¬ c = '\\') (h2 : ¬ c = '"')
    (h3 : ¬ c = '\n') (h4 : ¬ c = '\r') (h5 : ¬ c = '\t') (hp : StrBodyCopies p) :
    StrBodyCopies (c :: p) := by
  intro t
  rw [List.cons_append, escNL_in_ord c _ h1 h2 h3 h4 h5, hp, List.cons_append]

theorem strBodyCopies_esc (e : Char) {p : Str} (hp : StrBodyCopies p) :
    StrBodyCopies ('\\' :: e :: p) := by
  intro t
  rw [List.cons_append, List.cons_append, escNL_in_backslash, escNL_in_esc, hp]
  rfl

/-! ## Decompositions of the whitespace skippers -/

theorem skipWs_decomp (l : Str) :
    ∃ p, l = p ++ skipWs l ∧ ∀ c ∈ p, isWs c = true := by
  induction l with
  | nil => exact ⟨[], rfl, by simp⟩
  | cons c rest ih =>
    by_cases hc : isWs c = true
    · obtain ⟨p, hp, hw⟩ := ih
      refine ⟨c :: p, ?_, ?_⟩
      · simp only [skipWs, hc, if_true]
        rw [List.cons_append, ← hp]
      · intro d hd
        rcases List.mem_cons.mp hd with h | h
        · exact h ▸ hc
        · exact hw d h
    · refine ⟨[], ?_, by simp⟩
      simp [skipWs, hc]

theorem dropJsWs_decomp (l : Str) :
    ∃ p, l = p ++ dropJsWs l ∧ ∀ c ∈ p, isJsWs c = true := by
  induction l with
  | nil => exact ⟨[], rfl, by simp⟩
  | cons c rest ih =>
    by_cases hc : isJsWs c = true
    · obtain ⟨p, hp, hw⟩ := ih
      refine ⟨c :: p, ?_, ?_⟩
      · simp only [dropJsWs, hc, if_true]
        rw [List.cons_append, ← hp]
      · intro d hd
        rcases List.mem_cons.mp hd with h | h
        · exact h ▸ hc
        · exact hw d h
    · refine ⟨[], ?_, by simp⟩
      simp [dropJsWs, hc]

theorem isWs_ne_quote {c : Char} (h : isWs c = true) : ¬ c = '"' := by
  intro he
  subst he
  simp [isWs] at h

theorem isJsWs_ne_comma {c : Char} (h : isJsWs c = true) : ¬ c = ',' := by
  intro he
  subst he
  simp [isJsWs] at h

/-! ## Decomposition of a successful string-body parse -/

theorem hexVal_ranges {c : Char} {a : Nat} (h : hexVal c = some a) :
    (48 ≤ c.toNat ∧ c.toNat ≤ 57) ∨ (97 ≤ c.toNat ∧ c.toNat ≤ 102) ∨
      (65 ≤ c.toNat ∧ c.toNat ≤ 70) := by
  unfold hexVal at h
  split_ifs at h with h1 h2 h3
  · exact Or.inl h1
  · exact Or.inr (Or.inl h2)
  · exact Or.inr (Or.inr h3)

theorem hexVal_body_char {c : Char} {a : Nat} (h : hexVal c = some a) :
    ¬ c = '\\' ∧ ¬ c = '"' ∧ ¬ c = '\n' ∧ ¬ c = '\r' ∧ ¬ c = '\t' := by
  have hr := hexVal_ranges h
  refine ⟨?_, ?_, ?_, ?_, ?_⟩ <;> intro he <;> subst he <;> revert hr <;> decide

theorem not_ctl_ne {c : Char} (h : ¬ c.toNat < 32) :
    ¬ c = '\n' ∧ ¬ c = '\r' ∧ ¬ c = '\t' := by
  refine ⟨?_, ?_, ?_⟩ <;> intro he <;> subst he <;> exact h (by decide)

theorem parseStringBody_decomp :
    ∀ (fl : Nat) (l content r : Str), parseStringBody fl l = some (content, r) →
      ∃ p, l = p ++ r ∧ StrBodyCopies p := by
  intro fl
  induction fl with
  | zero =>
    intro l content r h
    simp [parseStringBody] at h
  | succ fl ih =>
    intro l content r h
    cases l with
    | nil => simp [parseStringBody] at h
    | cons c rest =>
      simp only [parseStringBody] at h
      split_ifs at h with hq hb hctl
      · -- closing quote
        simp only [Option.some.injEq, Prod.mk.injEq] at h
        obtain ⟨-, hr⟩ := h
        subst hr
        subst hq
        exact ⟨['"'], rfl, strBodyCopies_quote⟩
      · -- backslash escape
        cases rest with
        | nil => simp at h
        | cons e rest2 =>
          dsimp only [] at h
          by_cases hu : e = 'u'
          · subst hu
            rw [if_pos rfl] at h
            cases rest2 with
            | nil => simp at h
            | cons x1 t1 =>
              cases t1 with
              | nil => simp at h
              | cons x2 t2 =>
                cases t2 with
                | nil => simp at h
                | cons x3 t3 =>
                  cases t3 with
                  | nil => simp at h
                  | cons x4 rest3 =>
                    dsimp only [] at h
                    cases hv1 : hexVal x1 with
                    | none => rw [hv1] at h; simp at h
                    | some a1 =>
                      cases hv2 : hexVal x2 with
                      | none => rw [hv1, hv2] at h; simp at h
                      | some a2 =>
                        cases hv3 : hexVal x3 with
                        | none => rw [hv1, hv2, hv3] at h; simp at h
                        | some a3 =>
                          cases hv4 : hexVal x4 with
                          | none => rw [hv1, hv2, hv3, hv4] at h; simp at h
                          | some a4 =>
                            rw [hv1, hv2, hv3, hv4] at h
                            cases hsb : parseStringBody fl rest3 with
                            | none => rw [hsb] at h; simp at h
                            | some pr =>
                              obtain ⟨tail, r'⟩ := pr
                              rw [hsb] at h
                              simp only [Option.some.injEq, Prod.mk.injEq] at h
                              obtain ⟨-, hr⟩ := h
                              subst hr
                              obtain ⟨pb, hpb, hcopyb⟩ := ih _ _ _ hsb
                              subst hb
                              refine ⟨'\\' :: 'u' :: x1 :: x2 :: x3 :: x4 :: pb, ?_, ?_⟩
                              · simp [hpb]
                              · exact strBodyCopies_esc 'u'
                                  (strBodyCopies_cons (hexVal_body_char hv1).1
                                    (hexVal_body_char hv1).2.1 (hexVal_body_char hv1).2.2.1
                                    (hexVal_body_char hv1).2.2.2.1 (hexVal_body_char hv1).2.2.2.2
                                  (strBodyCopies_cons (hexVal_body_char hv2).1
                                    (hexVal_body_char hv2).2.1 (hexVal_body_char hv2).2.2.1
                                    (hexVal_body_char hv2).2.2.2.1 (hexVal_body_char hv2).2.2.2.2
                                  (strBodyCopies_cons (hexVal_body_char hv3).1
                                    (hexVal_body_char hv3).2.1 (hexVal_body_char hv3).2.2.1
                                    (hexVal_body_char hv3).2.2.2.1 (hexVal_body_char hv3).2.2.2.2
                                  (strBodyCopies_cons (hexVal_body_char hv4).1
                                    (hexVal_body_char hv4).2.1 (hexVal_body_char hv4).2.2.1
                                    (hexVal_body_char hv4).2.2.2.1 (hexVal_body_char hv4).2.2.2.2
                                    hcopyb))))
          · rw [if_neg hu] at h
            cases hec : escChar e with
            | none => rw [hec] at h; simp at h
            | some d =>
              rw [hec] at h
              cases hsb : parseStringBody fl rest2 with
              | none => rw [hsb] at h; simp at h
              | some pr =>
                obtain ⟨tail, r'⟩ := pr
                rw [hsb] at h
                simp only [Option.some.injEq, Prod.mk.injEq] at h
                obtain ⟨-, hr⟩ := h
                subst hr
                obtain ⟨pb, hpb, hcopyb⟩ := ih _ _ _ hsb
                subst hb
                refine ⟨'\\' :: e :: pb, ?_, strBodyCopies_esc e hcopyb⟩
                simp [hpb]
      · -- ordinary character: the control-character branch yields none and
        -- is discharged by split_ifs itself
        cases hsb : parseStringBody fl rest with
        | none => rw [hsb] at h; simp at h
        | some pr =>
          obtain ⟨tail, r'⟩ := pr
          rw [hsb] at h
          simp only [Option.some.injEq, Prod.mk.injEq] at h
          obtain ⟨-, hr⟩ := h
          subst hr
          obtain ⟨pb, hpb, hcopyb⟩ := ih _ _ _ hsb
          refine ⟨c :: pb, ?_, strBodyCopies_cons hb hq (not_ctl_ne hctl).1
            (not_ctl_ne hctl).2.1 (not_ctl_ne hctl).2.2 hcopyb⟩
          simp [hpb]

/-! ## Decomposition of a successful number parse -/

theorem isDigitCh_ne_quote {c : Char} (h : isDigitCh c = true) : ¬ c = '"' := by
  intro he
  subst he
  exact absurd h (by decide)

theorem parseIntPart_decomp {l ip r : Str} (h : parseIntPart l = some (ip, r)) :
    l = ip ++ r ∧ ∀ c ∈ ip, ¬ c = '"' := by
  cases l with
  | nil => simp [parseIntPart] at h
  | cons c rest =>
    simp only [parseIntPart] at h
    split_ifs at h with h0 hd
    · simp only [Option.some.injEq, Prod.mk.injEq] at h
      obtain ⟨hip, hr⟩ := h
      subst hip; subst hr
      refine ⟨rfl, ?_⟩
      intro d hd
      simp only [List.mem_singleton] at hd
      subst hd
      subst h0
      decide
    · simp only [Option.some.injEq, Prod.mk.injEq] at h
      obtain ⟨hip, hr⟩ := h
      subst hip; subst hr
      constructor
      · rw [List.cons_append, List.takeWhile_append_dropWhile]
      · intro d hdm
        rcases List.mem_cons.mp hdm with he | he
        · exact he ▸ isDigitCh_ne_quote hd
        · exact isDigitCh_ne_quote (List.mem_takeWhile_imp he)

theorem parseFracPart_decomp {l fp r : Str} (h : parseFracPart l = some (fp, r)) :
    l = fp ++ r ∧ ∀ c ∈ fp, ¬ c = '"' := by
  cases l with
  | nil =>
    simp only [parseFracPart, Option.some.injEq, Prod.mk.injEq] at h
    obtain ⟨h1, h2⟩ := h
    subst h1; subst h2
    exact ⟨rfl, by simp⟩
  | cons c rest =>
    simp only [parseFracPart] at h
    split_ifs at h with hdot
    · cases rest with
      | nil => simp at h
      | cons d rest2 =>
        dsimp only [] at h
        split_ifs at h with hd
        · simp only [Option.some.injEq, Prod.mk.injEq] at h
          obtain ⟨h1, h2⟩ := h
          subst h1; subst h2
          constructor
          · rw [List.cons_append, List.takeWhile_append_dropWhile]
          · intro x hx
            rcases List.mem_cons.mp hx with he | he
            · subst he; subst hdot; decide
            · exact isDigitCh_ne_quote (List.mem_takeWhile_imp he)
    · simp only [Option.some.injEq, Prod.mk.injEq] at h
      obtain ⟨h1, h2⟩ := h
      subst h1; subst h2
      exact ⟨rfl, by simp⟩

theorem parseExpPart_decomp {l ep r : Str} (h : parseExpPart l = some (ep, r)) :
    l = ep ++ r ∧ ∀ c ∈ ep, ¬ c = '"' := by
  cases l with
  | nil =>
    simp only [parseExpPart, Option.some.injEq, Prod.mk.injEq] at h
    obtain ⟨h1, h2⟩ := h
    subst h1; subst h2
    exact ⟨rfl, by simp⟩
  | cons c rest =>
    simp only [parseExpPart] at h
    split_ifs at h with he
    · cases rest with
      | nil => simp at h
      | cons s r1 =>
        dsimp only [] at h
        split_ifs at h with hs
        · cases r1 with
          | nil => simp at h
          | cons d r2 =>
            dsimp only [] at h
            split_ifs at h with hd2
            · simp only [Option.some.injEq, Prod.mk.injEq] at h
              obtain ⟨h1, h2⟩ := h
              subst h1; subst h2
              constructor
              · rw [List.cons_append, List.cons_append, List.takeWhile_append_dropWhile]
              · intro x hx
                rcases List.mem_cons.mp hx with hxe | hxe
                · subst hxe
                  rcases Bool.or_eq_true_iff.mp he with h' | h' <;>
                    · have := of_decide_eq_true h'
                      subst this
                      decide
                · rcases List.mem_cons.mp hxe with hxe2 | hxe2
                  · subst hxe2
                    rcases Bool.or_eq_true_iff.mp hs with h' | h' <;>
                      · have := of_decide_eq_true h'
                        subst this
                        decide
                  · exact isDigitCh_ne_quote (List.mem_takeWhile_imp hxe2)
        · simp only [Option.some.injEq, Prod.mk.injEq] at h
          obtain ⟨h1, h2⟩ := h
          subst h1; subst h2
          constructor
          · rw [List.cons_append, List.takeWhile_append_dropWhile]
          · intro x hx
            rcases List.mem_cons.mp hx with hxe | hxe
            · subst hxe
              rcases Bool.or_eq_true_iff.mp he with h' | h' <;>
                · have := of_decide_eq_true h'
                  subst this
                  decide
            · exact isDigitCh_ne_quote (List.mem_takeWhile_imp hxe)
    · simp only [Option.some.injEq, Prod.mk.injEq] at h
      obtain ⟨h1, h2⟩ := h
      subst h1; subst h2
      exact ⟨rfl, by simp⟩

theorem numberSign_decomp (l : Str) :
    l = (numberSign l).1 ++ (numberSign l).2 ∧ ∀ c ∈ (numberSign l).1, ¬ c = '"' := by
  cases l with
  | nil => exact ⟨rfl, by simp [numberSign]⟩
  | cons c rest =>
    simp only [numberSign]
    split_ifs with hm
    · refine ⟨by simp, ?_⟩
      intro x hx
      simp only [List.mem_singleton] at hx
      subst hx; subst hm; decide
    · exact ⟨rfl, by simp⟩

theorem parseNumber_decomp {l lit r : Str} (h : parseNumber l = some (lit, r)) :
    l = lit ++ r ∧ ∀ c ∈ lit, ¬ c = '"' := by
  unfold parseNumber at h
  cases hip : parseIntPart (numberSign l).2 with
  | none => rw [hip] at h; simp at h
  | some pip =>
    obtain ⟨ip, l2⟩ := pip
    rw [hip] at h
    dsimp only [] at h
    cases hfp : parseFracPart l2 with
    | none => rw [hfp] at h; simp at h
    | some pfp =>
      obtain ⟨fp, l3⟩ := pfp
      rw [hfp] at h
      dsimp only [] at h
      cases hep : parseExpPart l3 with
      | none => rw [hep] at h; simp at h
      | some pep =>
        obtain ⟨ep, r'⟩ := pep
        rw [hep] at h
        dsimp only [] at h
        simp only [Option.some.injEq, Prod.mk.injEq] at h
        obtain ⟨h1, h2⟩ := h
        subst h1; subst h2
        obtain ⟨hs1, hs2⟩ := numberSign_decomp l
        obtain ⟨hi1, hi2⟩ := parseIntPart_decomp hip
        obtain ⟨hf1, hf2⟩ := parseFracPart_decomp hfp
        obtain ⟨he1, he2⟩ := parseExpPart_decomp hep
        constructor
        · calc l = (numberSign l).1 ++ (numberSign l).2 := hs1
            _ = (numberSign l).1 ++ (ip ++ l2) := by rw [hi1]
            _ = (numberSign l).1 ++ (ip ++ (fp ++ l3)) := by rw [hf1]
            _ = (numberSign l).1 ++ (ip ++ (fp ++ (ep ++ r'))) := by rw [he1]
            _ = (numberSign l).1 ++ ip ++ fp ++ ep ++ r' := by simp [List.append_assoc]
        · intro x hx
          simp only [List.mem_append] at hx
          rcases hx with ((hx | hx) | hx) | hx
          · exact hs2 x hx
          · exact hi2 x hx
          · exact hf2 x hx
          · exact he2 x hx

/-! ## Decomposition of successful value, member-list and element-list parses -/

theorem parse_decomp (fuel : Nat) :
    (∀ l v r, parseVal fuel l = some (v, r) → ∃ p, l = p ++ r ∧ OutsideCopies p)
    ∧ (∀ l kvs r, parseMembers fuel l = some (kvs, r) → ∃ p, l = p ++ r ∧ OutsideCopies p)
    ∧ (∀ l vs r, parseElems fuel l = some (vs, r) → ∃ p, l = p ++ r ∧ OutsideCopies p) := by
  induction fuel with
  | zero =>
    refine ⟨?_, ?_, ?_⟩ <;> intro l a r h <;> simp [parseVal, parseMembers, parseElems] at h
  | succ fuel ih =>
    obtain ⟨ihV, ihM, ihE⟩ := ih
    refine ⟨?_, ?_, ?_⟩
    · intro l v r h
      obtain ⟨pws, hpl, hwsw⟩ := skipWs_decomp l
      simp only [parseVal] at h
      split at h
      · exact absurd h (by simp)
      · rename_i c rest hsw
        rw [hsw] at hpl
        have hwsq : OutsideCopies pws :=
          outsideCopies_of_ne_quote fun d hd => isWs_ne_quote (hwsw d hd)
        split_ifs at h with hq hbrace hbrack ht hf hn
        · -- string value
          cases hsb : parseStringBody (rest.length + 1) rest with
          | none => rw [hsb] at h; simp at h
          | some pr =>
            obtain ⟨content, r'⟩ := pr
            rw [hsb] at h
            dsimp only [] at h
            simp only [Option.some.injEq, Prod.mk.injEq] at h
            obtain ⟨-, hr⟩ := h
            subst hr
            obtain ⟨pb, hpb, hcopyb⟩ := parseStringBody_decomp _ _ _ _ hsb
            subst hq
            refine ⟨pws ++ '"' :: pb, ?_, outsideCopies_append hwsq (outsideCopies_quote hcopyb)⟩
            rw [hpl, hpb]
            simp [List.append_assoc]
        · -- object value
          obtain ⟨pws2, hpr, hwsw2⟩ := skipWs_decomp rest
          have hwsq2 : OutsideCopies pws2 :=
            outsideCopies_of_ne_quote fun d hd => isWs_ne_quote (hwsw2 d hd)
          split at h
          · rename_i r2 hsw2
            rw [hsw2] at hpr
            simp only [Option.some.injEq, Prod.mk.injEq] at h
            obtain ⟨-, hr⟩ := h
            subst hr
            subst hbrace
            refine ⟨pws ++ '{' :: (pws2 ++ ['}']), ?_, ?_⟩
            · rw [hpl, hpr]
              simp [List.append_assoc]
            · exact outsideCopies_append hwsq
                (outsideCopies_cons (by decide)
                  (outsideCopies_append hwsq2 (outsideCopies_of_ne_quote (by decide))))
          · cases hm : parseMembers fuel (skipWs rest) with
            | none => rw [hm] at h; simp at h
            | some pr =>
              obtain ⟨kvs, r'⟩ := pr
              rw [hm] at h
              dsimp only [] at h
              simp only [Option.some.injEq, Prod.mk.injEq] at h
              obtain ⟨-, hr⟩ := h
              subst hr
              obtain ⟨pm, hpm, hcopym⟩ := ihM _ _ _ hm
              subst hbrace
              refine ⟨pws ++ '{' :: (pws2 ++ pm), ?_, ?_⟩
              · rw [hpl, hpr, hpm]
                simp [List.append_assoc]
              · exact outsideCopies_append hwsq
                  (outsideCopies_cons (by decide) (outsideCopies_append hwsq2 hcopym))
        · -- array value
          obtain ⟨pws2, hpr, hwsw2⟩ := skipWs_decomp rest
          have hwsq2 : OutsideCopies pws2 :=
            outsideCopies_of_ne_quote fun d hd => isWs_ne_quote (hwsw2 d hd)
          split at h
          · rename_i r2 hsw2
            rw [hsw2] at hpr
            simp only [Option.some.injEq, Prod.mk.injEq] at h
            obtain ⟨-, hr⟩ := h
            subst hr
            subst hbrack
            refine ⟨pws ++ '[' :: (pws2 ++ [']']), ?_, ?_⟩
            · rw [hpl, hpr]
              simp [List.append_assoc]
            · exact outsideCopies_append hwsq
                (outsideCopies_cons (by decide)
                  (outsideCopies_append hwsq2 (outsideCopies_of_ne_quote (by decide))))
          · cases hm : parseElems fuel (skipWs rest) with
            | none => rw [hm] at h; simp at h
            | some pr =>
              obtain ⟨vs, r'⟩ := pr
              rw [hm] at h
              dsimp only [] at h
              simp only [Option.some.injEq, Prod.mk.injEq] at h
              obtain ⟨-, hr⟩ := h
              subst hr
              obtain ⟨pm, hpm, hcopym⟩ := ihE _ _ _ hm
              subst hbrack
              refine ⟨pws ++ '[' :: (pws2 ++ pm), ?_, ?_⟩
              · rw [hpl, hpr, hpm]
                simp [List.append_assoc]
              · exact outsideCopies_append hwsq
                  (outsideCopies_cons (by decide) (outsideCopies_append hwsq2 hcopym))
        · -- true literal
          split at h
          · rename_i tl
            simp only [Option.some.injEq, Prod.mk.injEq] at h
            obtain ⟨-, hr⟩ := h
            subst hr
            subst ht
            refine ⟨pws ++ ['t', 'r', 'u', 'e'], ?_, ?_⟩
            · rw [hpl]
              simp [List.append_assoc]
            · exact outsideCopies_append hwsq (outsideCopies_of_ne_quote (by decide))
          · exact absurd h (by simp)
        · -- false literal
          split at h
          · rename_i tl
            simp only [Option.some.injEq, Prod.mk.injEq] at h
            obtain ⟨-, hr⟩ := h
            subst hr
            subst hf
            refine ⟨pws ++ ['f', 'a', 'l', 's', 'e'], ?_, ?_⟩
            · rw [hpl]
              simp [List.append_assoc]
            · exact outsideCopies_append hwsq (outsideCopies_of_ne_quote (by decide))
          · exact absurd h (by simp)
        · -- null literal
          split at h
          · rename_i tl
            simp only [Option.some.injEq, Prod.mk.injEq] at h
            obtain ⟨-, hr⟩ := h
            subst hr
            subst hn
            refine ⟨pws ++ ['n', 'u', 'l', 'l'], ?_, ?_⟩
            · rw [hpl]
              simp [List.append_assoc]
            · exact outsideCopies_append hwsq (outsideCopies_of_ne_quote (by decide))
          · exact absurd h (by simp)
        · -- number
          cases hn2 : parseNumber (c :: rest) with
          | none => rw [hn2] at h; simp at h
          | some pr =>
            obtain ⟨lit, r'⟩ := pr
            rw [hn2] at h
            dsimp only [] at h
            simp only [Option.some.injEq, Prod.mk.injEq] at h
            obtain ⟨-, hr⟩ := h
            subst hr
            obtain ⟨hlit, hlitq⟩ := parseNumber_decomp hn2
            refine ⟨pws ++ lit, ?_, ?_⟩
            · rw [hpl, hlit]
              simp [List.append_assoc]
            · exact outsideCopies_append hwsq (outsideCopies_of_ne_quote hlitq)
    · intro l kvs r h
      obtain ⟨pws, hpl, hwsw⟩ := skipWs_decomp l
      have hwsq : OutsideCopies pws :=
        outsideCopies_of_ne_quote fun d hd => isWs_ne_quote (hwsw d hd)
      simp only [parseMembers] at h
      split at h
      · rename_i rest hsw
        rw [hsw] at hpl
        cases hsb : parseStringBody (rest.length + 1) rest with
        | none => rw [hsb] at h; simp at h
        | some prk =>
          obtain ⟨key, r1⟩ := prk
          rw [hsb] at h
          dsimp only [] at h
          obtain ⟨pk, hpk, hcopyk⟩ := parseStringBody_decomp _ _ _ _ hsb
          obtain ⟨pws2, hpr1, hwsw2⟩ := skipWs_decomp r1
          have hwsq2 : OutsideCopies pws2 :=
            outsideCopies_of_ne_quote fun d hd => isWs_ne_quote (hwsw2 d hd)
          split at h
          · rename_i r2 hsw2
            rw [hsw2] at hpr1
            cases hv : parseVal fuel r2 with
            | none => rw [hv] at h; simp at h
            | some prv =>
              obtain ⟨v, r3⟩ := prv
              rw [hv] at h
              dsimp only [] at h
              obtain ⟨pv, hpv, hcopyv⟩ := ihV _ _ _ hv
              obtain ⟨pws3, hpr3, hwsw3⟩ := skipWs_decomp r3
              have hwsq3 : OutsideCopies pws3 :=
                outsideCopies_of_ne_quote fun d hd => isWs_ne_quote (hwsw3 d hd)
              split at h
              · rename_i r4 hsw3
                rw [hsw3] at hpr3
                cases hmm : parseMembers fuel r4 with
                | none => rw [hmm] at h; simp at h
                | some prm =>
                  obtain ⟨kvs2, r5⟩ := prm
                  rw [hmm] at h
                  dsimp only [] at h
                  simp only [Option.some.injEq, Prod.mk.injEq] at h
                  obtain ⟨-, hr⟩ := h
                  subst hr
                  obtain ⟨pm2, hpm2, hcopym2⟩ := ihM _ _ _ hmm
                  refine ⟨pws ++ (('"' :: pk) ++ (pws2 ++ (([':'] ++ pv) ++
                    (pws3 ++ ([','] ++ pm2))))), ?_, ?_⟩
                  · rw [hpl, hpk, hpr1, hpv, hpr3, hpm2]
                    simp [List.append_assoc]
                  · exact outsideCopies_append hwsq
                      (outsideCopies_append (outsideCopies_quote hcopyk)
                        (outsideCopies_append hwsq2
                          (outsideCopies_append
                            (outsideCopies_append (outsideCopies_of_ne_quote (by decide)) hcopyv)
                            (outsideCopies_append hwsq3
                              (outsideCopies_append (outsideCopies_of_ne_quote (by decide))
                                hcopym2)))))
              · rename_i r4 hsw3
                rw [hsw3] at hpr3
                simp only [Option.some.injEq, Prod.mk.injEq] at h
                obtain ⟨-, hr⟩ := h
                subst hr
                refine ⟨pws ++ (('"' :: pk) ++ (pws2 ++ (([':'] ++ pv) ++
                  (pws3 ++ ['}'])))), ?_, ?_⟩
                · rw [hpl, hpk, hpr1, hpv, hpr3]
                  simp [List.append_assoc]
                · exact outsideCopies_append hwsq
                    (outsideCopies_append (outsideCopies_quote hcopyk)
                      (outsideCopies_append hwsq2
                        (outsideCopies_append
                          (outsideCopies_append (outsideCopies_of_ne_quote (by decide)) hcopyv)
                          (outsideCopies_append hwsq3
                            (outsideCopies_of_ne_quote (by decide))))))
              · exact absurd h (by simp)
          · exact absurd h (by simp)
      · exact absurd h (by simp)
    · intro l vs r h
      simp only [parseElems] at h
      cases hv : parseVal fuel l with
      | none => rw [hv] at h; simp at h
      | some prv =>
        obtain ⟨v, r1⟩ := prv
        rw [hv] at h
        dsimp only [] at h
        obtain ⟨pv, hpv, hcopyv⟩ := ihV _ _ _ hv
        obtain ⟨pws1, hpr1, hwsw1⟩ := skipWs_decomp r1
        have hwsq1 : OutsideCopies pws1 :=
          outsideCopies_of_ne_quote fun d hd => isWs_ne_quote (hwsw1 d hd)
        split at h
        · rename_i r2 hsw1
          rw [hsw1] at hpr1
          cases he : parseElems fuel r2 with
          | none => rw [he] at h; simp at h
          | some pre =>
            obtain ⟨vs2, r3⟩ := pre
            rw [he] at h
            dsimp only [] at h
            simp only [Option.some.injEq, Prod.mk.injEq] at h
            obtain ⟨-, hr⟩ := h
            subst hr
            obtain ⟨pe, hpe, hcopye⟩ := ihE _ _ _ he
            refine ⟨pv ++ (pws1 ++ ([','] ++ pe)), ?_, ?_⟩
            · rw [hpv, hpr1, hpe]
              simp [List.append_assoc]
            · exact outsideCopies_append hcopyv
                (outsideCopies_append hwsq1
                  (outsideCopies_append (outsideCopies_of_ne_quote (by decide)) hcopye))
        · rename_i r2 hsw1
          rw [hsw1] at hpr1
          simp only [Option.some.injEq, Prod.mk.injEq] at h
          obtain ⟨-, hr⟩ := h
          subst hr
          refine ⟨pv ++ (pws1 ++ [']']), ?_, ?_⟩
          · rw [hpv, hpr1]
            simp [List.append_assoc]
          · exact outsideCopies_append hcopyv
              (outsideCopies_append hwsq1 (outsideCopies_of_ne_quote (by decide)))
        · exact absurd h (by simp)

/-- On any input accepted by the strict JSON parser, the scanner-escaper is
the identity: a syntactically valid JSON text contains no raw control
character inside a string, so nothing is rewritten. -/
theorem escape_id_of_parse {s : Str} {v : Json} (h : parseJson s = some v) :
    escapeNewlinesInsideStrings s = s := by
  unfold parseJson at h
  cases hv : parseVal (2 * s.length + 2) s with
  | none => rw [hv] at h; simp at h
  | some pr =>
    obtain ⟨v', r⟩ := pr
    rw [hv] at h
    dsimp only [] at h
    cases hsw : skipWs r with
    | cons c tl => rw [hsw] at h; simp at h
    | nil =>
      obtain ⟨p, hp, hcopy⟩ := (parse_decomp _).1 _ _ _ hv
      obtain ⟨pr2, hr2, hw2⟩ := skipWs_decomp r
      rw [hsw, List.append_nil] at hr2
      have hrcopy : OutsideCopies r :=
        outsideCopies_of_ne_quote fun d hd => isWs_ne_quote (hw2 d (hr2 ▸ hd))
      have hre : escNL r false false = r := by
        have h0 := hrcopy []
        simp only [List.append_nil, escNL] at h0
        exact h0
      unfold escapeNewlinesInsideStrings
      rw [hp, hcopy r, hre]

theorem trailingCommaCount_append_no_comma {p : Str} (h : ∀ c ∈ p, ¬ c = ',') :
    ∀ x : Str, trailingCommaCount (p ++ x) = trailingCommaCount x := by
  induction p with
  | nil => intro x; rfl
  | cons c q ih =>
    intro x
    rw [List.cons_append]
    simp only [trailingCommaCount]
    rw [if_neg (h c (List.mem_cons_self c q)), ih fun d hd => h d (List.mem_cons_of_mem c hd)]
    omega

theorem count_comma_no_comma {p : Str} (h : ∀ c ∈ p, ¬ c = ',') :
    List.count ',' p = 0 := by
  rw [List.count_eq_zero]
  intro hm
  exact h ',' hm rfl

theorem rtcF_count : ∀ (n : Nat) (l : Str), l.length ≤ n →
    List.count ',' l = List.count ',' (rtcF n l) + trailingCommaCount l := by
  intro n
  induction n with
  | zero =>
    intro l hl
    have : l = [] := List.length_eq_zero.mp (Nat.le_zero.mp hl)
    subst this
    rfl
  | succ n ih =>
    intro l hl
    cases l with
    | nil => rfl
    | cons c rest =>
      simp only [List.length_cons, Nat.succ_le_succ_iff] at hl
      by_cases hc : c = ','
      · subst hc
        cases hct : closerTail (dropJsWs rest) with
        | some pr =>
          obtain ⟨b, rest2⟩ := pr
          obtain ⟨hdw, hb⟩ := closerTail_some hct
          obtain ⟨pw, hpw, hwj⟩ := dropJsWs_decomp rest
          rw [hdw] at hpw
          have hblen : (b :: rest2).length ≤ rest.length := by
            rw [← hdw]
            exact dropJsWs_length rest
          have hlen2 : rest2.length ≤ n := by
            simp only [List.length_cons] at hblen
            omega
          have hbne : ¬ b = ',' := by
            rcases hb with h | h <;> subst h <;> decide
          have hrtc : rtcF (n + 1) (',' :: rest) = b :: rtcF n rest2 := by
            simp [rtcF, hct]
          have hcount_rest : List.count ',' rest = List.count ',' rest2 := by
            rw [hpw, List.count_append,
              count_comma_no_comma fun d hd => isJsWs_ne_comma (hwj d hd),
              List.count_cons_of_ne (fun he => hbne he.symm)]
            omega
          have htcc_rest : trailingCommaCount rest = trailingCommaCount rest2 := by
            rw [hpw,
              trailingCommaCount_append_no_comma (fun d hd => isJsWs_ne_comma (hwj d hd))]
            simp only [trailingCommaCount]
            rw [if_neg hbne]
            omega
          have ihr := ih rest2 hlen2
          rw [hrtc]
          simp only [trailingCommaCount, hct, Option.isSome_some, if_true,
            List.count_cons_self, List.count_cons_of_ne (fun he => hbne he.symm)]
          omega
        | none =>
          have hrtc : rtcF (n + 1) (',' :: rest) = ',' :: rtcF n rest := by
            simp [rtcF, hct]
          have ihr := ih rest hl
          rw [hrtc]
          simp only [trailingCommaCount, hct, Option.isSome_none, Bool.false_eq_true,
            if_false, List.count_cons_self, if_true]
          omega
      · have hrtc : rtcF (n + 1) (c :: rest) = c :: rtcF n rest := by
          simp [rtcF, hc]
        have ihr := ih rest hl
        rw [hrtc]
        simp only [trailingCommaCount, if_neg hc,
          List.count_cons_of_ne (fun he => hc he.symm)]
        omega

theorem rtcF_sublist : ∀ (n : Nat) (l : Str), (rtcF n l).Sublist l := by
  intro n
  induction n with
  | zero => intro l; exact List.Sublist.refl l
  | succ n ih =>
    intro l
    cases l with
    | nil => simp [rtcF]
    | cons c rest =>
      by_cases hc : c = ','
      · subst hc
        cases hct : closerTail (dropJsWs rest) with
        | some pr =>
          obtain ⟨b, rest2⟩ := pr
          obtain ⟨hdw, hb⟩ := closerTail_some hct
          obtain ⟨pw, hpw, hwj⟩ := dropJsWs_decomp rest
          rw [hdw] at hpw
          have h1 : (rtcF (n + 1) (',' :: rest)) = b :: rtcF n rest2 := by
            simp [rtcF, hct]
          rw [h1]
          have h2 : (b :: rtcF n rest2).Sublist (b :: rest2) :=
            List.Sublist.cons₂ b (ih rest2)
          have h3 : (b :: rest2).Sublist rest := by
            rw [hpw]
            exact List.sublist_append_right pw (b :: rest2)
          exact List.Sublist.cons ',' (h2.trans h3)
        | none =>
          have h1 : rtcF (n + 1) (',' :: rest) = ',' :: rtcF n rest := by
            simp [rtcF, hct]
          rw [h1]
          exact List.Sublist.cons₂ ',' (ih rest)
      · have h1 : rtcF (n + 1) (c :: rest) = c :: rtcF n rest := by
          simp [rtcF, hc]
        rw [h1]
        exact List.Sublist.cons₂ c (ih rest)

/-! ## Length bound and idempotence of the scanner-escaper -/

theorem escNL_length (l : Str) : ∀ inS esc : Bool,
    l.length ≤ (escNL l inS esc).length + List.count '\r' l := by
  induction l with
  | nil => intro inS esc; simp [escNL]
  | cons c rest ih =>
    intro inS esc
    by_cases hcr : c = '\r'
    · subst hcr
      rw [List.count_cons_self]
      cases inS
      · rw [escNL_out_cons _ _ _ (by decide)]
        have := ih false esc
        simp only [List.length_cons]
        omega
      · cases esc
        · rw [escNL_in_cr]
          have := ih true false
          simp only [List.length_cons]
          omega
        · rw [escNL_in_esc]
          have := ih true false
          simp only [List.length_cons]
          omega
    · rw [List.count_cons_of_ne fun he => hcr he.symm]
      cases inS
      · by_cases hq : c = '"'
        · subst hq
          rw [escNL_out_quote]
          have := ih true esc
          simp only [List.length_cons]
          omega
        · rw [escNL_out_cons _ _ _ hq]
          have := ih false esc
          simp only [List.length_cons]
          omega
      · cases esc
        · by_cases hbs : c = '\\'
          · subst hbs
            rw [escNL_in_backslash]
            have := ih true true
            simp only [List.length_cons]
            omega
          · by_cases hq : c = '"'
            · subst hq
              rw [escNL_in_quote]
              have := ih false false
              simp only [List.length_cons]
              omega
            · by_cases hnl : c = '\n'
              · subst hnl
                rw [escNL_in_nl]
                have := ih true false
                simp only [List.length_cons]
                omega
              · by_cases htb : c = '\t'
                · subst htb
                  rw [escNL_in_tab]
                  have := ih true false
                  simp only [List.length_cons]
                  omega
                · rw [escNL_in_ord c _ hbs hq hnl hcr htb]
                  have := ih true false
                  simp only [List.length_cons]
                  omega
        · rw [escNL_in_esc]
          have := ih true false
          simp only [List.length_cons]
          omega

theorem escNL_idem (l : Str) : ∀ inS esc : Bool,
    escNL (escNL l inS esc) inS esc = escNL l inS esc := by
  induction l with
  | nil => intro inS esc; rfl
  | cons c rest ih =>
    intro inS esc
    cases inS
    · by_cases hq : c = '"'
      · subst hq
        rw [escNL_out_quote, escNL_out_quote, ih true esc]
      · rw [escNL_out_cons _ _ _ hq, escNL_out_cons _ _ _ hq, ih false esc]
    · cases esc
      · by_cases hbs : c = '\\'
        · subst hbs
          rw [escNL_in_backslash, escNL_in_backslash, ih true true]
        · by_cases hq : c = '"'
          · subst hq
            rw [escNL_in_quote, escNL_in_quote, ih false false]
          · by_cases hnl : c = '\n'
            · subst hnl
              rw [escNL_in_nl, escNL_in_backslash, escNL_in_esc, ih true false]
            · by_cases hcr : c = '\r'
              · subst hcr
                rw [escNL_in_cr]
                exact ih true false
              · by_cases htb : c = '\t'
                · subst htb
                  rw [escNL_in_tab, escNL_in_backslash, escNL_in_esc, ih true false]
                · rw [escNL_in_ord c _ hbs hq hnl hcr htb,
                    escNL_in_ord c _ hbs hq hnl hcr htb, ih true false]
      · rw [escNL_in_esc, escNL_in_esc, ih true false]

/-! ## Remaining helper lemmas -/

theorem firstIdx_eq_none_iff (c : Char) (l : Str) :
    firstIdx c l = none ↔ ¬ c ∈ l := by
  induction l with
  | nil => simp [firstIdx]
  | cons x xs ih =>
    simp only [firstIdx]
    by_cases hx : x = c
    · simp [hx]
    · have hcx : ¬ c = x := fun he => hx he.symm
      rw [if_neg hx]
      simp [Option.map_eq_none', ih, List.mem_cons, hcx]

theorem lastIdx_eq_none_iff (c : Char) (l : Str) :
    lastIdx c l = none ↔ ¬ c ∈ l := by
  induction l with
  | nil => simp [lastIdx]
  | cons x xs ih =>
    simp only [lastIdx]
    cases hlx : lastIdx c xs with
    | some i =>
      have hm : c ∈ xs := by
        by_contra hnm
        rw [ih.mpr hnm] at hlx
        cases hlx
      simp [List.mem_cons, hm]
    | none =>
      have hnm : ¬ c ∈ xs := ih.mp hlx
      by_cases hx : x = c
      · simp [hx]
      · have hcx : ¬ c = x := fun he => hx he.symm
        simp [if_neg hx, List.mem_cons, hcx, hnm]

theorem repairOutcome_fallback_arg {raw raw' : Str}
    (h : repairOutcome raw = RepairOutcome.fallback raw') : raw' = raw := by
  unfold repairOutcome at h
  cases hx : extractJsonObject raw with
  | none =>
    rw [hx] at h
    cases h
    rfl
  | some cand =>
    rw [hx] at h
    dsimp only [] at h
    cases hp : parseJson (escapeNewlinesInsideStrings (sanitizeCommonBreakers cand)) with
    | none =>
      rw [hp] at h
      cases h
      rfl
    | some v =>
      rw [hp] at h
      cases h

/-! ## Claim theorems -/

/-- C1: the repair pipeline never raises an error to its caller: for every
raw text the outcome is exactly one of the parsed JSON value or the
fallback wrapping the raw text; an absent candidate or a strict-parse
failure always yields the fallback; and the part_001 handler's successful
POST response carries either the parsed value or the fallback envelope. -/
theorem groq_repair_total_outcome (raw : Str) :
    ((∃ v, repairOutcome raw = RepairOutcome.parsed v) ↔
      ¬ repairOutcome raw = RepairOutcome.fallback raw)
    ∧ (extractJsonObject raw = none → repairOutcome raw = RepairOutcome.fallback raw)
    ∧ (∀ cand, extractJsonObject raw = some cand →
        parseJson (escapeNewlinesInsideStrings (sanitizeCommonBreakers cand)) = none →
        repairOutcome raw = RepairOutcome.fallback raw)
    ∧ (∀ cand v, extractJsonObject raw = some cand →
        parseJson (escapeNewlinesInsideStrings (sanitizeCommonBreakers cand)) = some v →
        repairOutcome raw = RepairOutcome.parsed v)
    ∧ (∀ d : GroqData, d.error = none → groqRawText d = raw →
        (part001Handler "POST" (UpBehavior.ok d)).status = 200 ∧
        ((∃ v, (part001Handler "POST" (UpBehavior.ok d)).body =
            some (RespBody.parsedJson v))
          ∨ (part001Handler "POST" (UpBehavior.ok d)).body =
            some (RespBody.envelope raw))) := by
  refine ⟨?_, ?_, ?_, ?_, ?_⟩
  · cases hro : repairOutcome raw with
    | parsed v => simp
    | fallback raw2 =>
      have harg := repairOutcome_fallback_arg hro
      subst harg
      simp
  · intro hx
    unfold repairOutcome
    rw [hx]
  · intro cand hx hp
    unfold repairOutcome
    rw [hx]
    dsimp only []
    rw [hp]
  · intro cand v hx hp
    unfold repairOutcome
    rw [hx]
    dsimp only []
    rw [hp]
  · intro d hd hraw
    have h1 : ¬ ("POST" : String) = "OPTIONS" := by decide
    have h2 : ¬ ¬ ("POST" : String) = "POST" := by decide
    unfold part001Handler
    rw [if_neg h1, if_neg h2]
    dsimp only []
    rw [hd]
    dsimp only []
    cases hro : repairOutcome (groqRawText d) with
    | parsed v =>
      exact ⟨rfl, Or.inl ⟨v, rfl⟩⟩
    | fallback raw2 =>
      have : raw2 = raw := by
        rw [← hraw]
        exact repairOutcome_fallback_arg hro
      subst this
      exact ⟨rfl, Or.inr rfl⟩

/-- C1 witness: a text with no brace yields the fallback envelope. -/
theorem groq_repair_total_outcome_witness :
    repairOutcome ['h', 'i'] = RepairOutcome.fallback ['h', 'i'] :=
  (groq_repair_total_outcome ['h', 'i']).2.1 (by rfl)

/-- C2 counterexample: the valid JSON text left-bracket quote a comma
right-bracket quote right-bracket is changed by the Sanitizer, whose
trailing-comma regex fires inside the string literal, so the claimed
round trip fails on it. -/
theorem roundtrip_counterexample :
    (parseJson exRound).isSome = true
    ∧ ¬ escapeNewlinesInsideStrings (sanitizeCommonBreakers exRound) = exRound := by
  constructor
  · rfl
  · decide

/-- C2 (amended): for every syntactically valid JSON string that the
Sanitizer leaves unchanged, applying the Sanitizer and then the
Scanner-Escaper yields the string itself, and strict-parsing the result
succeeds with the same value as parsing the original. -/
theorem roundtrip_sanitizer_fixed (s : Str) (v : Json)
    (h1 : parseJson s = some v) (h2 : sanitizeCommonBreakers s = s) :
    escapeNewlinesInsideStrings (sanitizeCommonBreakers s) = s
    ∧ parseJson (escapeNewlinesInsideStrings (sanitizeCommonBreakers s)) = some v := by
  have he : escapeNewlinesInsideStrings s = s := escape_id_of_parse h1
  rw [h2, he]
  exact ⟨rfl, h1⟩

/-- C2 witness: the round trip on a small valid object. -/
theorem roundtrip_sanitizer_fixed_witness :
    escapeNewlinesInsideStrings (sanitizeCommonBreakers exTrailingOut) = exTrailingOut
    ∧ parseJson (escapeNewlinesInsideStrings (sanitizeCommonBreakers exTrailingOut)) =
        some (Json.objV [(['a'], Json.numV ['1'])]) :=
  roundtrip_sanitizer_fixed exTrailingOut (Json.objV [(['a'], Json.numV ['1'])])
    (by rfl) (by rfl)

/-- C3: inside a string with the escaped flag clear, a raw newline is
emitted as the two-character sequence backslash-n; on the spec's example
the escaper produces the escaped form, which strict-parses to the object
with the newline decoded in the value. -/
theorem escape_newline_in_string :
    (∀ rest : Str, escNL ('\n' :: rest) true false = '\\' :: 'n' :: escNL rest true false)
    ∧ escapeNewlinesInsideStrings exNewline = exNewlineOut
    ∧ parseJson exNewlineOut =
        some (Json.objV [(['a'],
          Json.strV ['l', 'i', 'n', 'e', '1', '\n', 'l', 'i', 'n', 'e', '2'])]) :=
  ⟨fun rest => escNL_in_nl rest, by rfl, by rfl⟩

/-- C4: a backslash inside a string makes the next character pass through
uninterpreted, so an escaped quote does not clear the in-string flag; the
spec's example text is copied through unchanged. -/
theorem escape_escaped_quote_keeps_instring :
    (∀ (c : Char) (rest : Str),
      escNL ('\\' :: c :: rest) true false = '\\' :: c :: escNL rest true false)
    ∧ escapeNewlinesInsideStrings exEscQuote = exEscQuote :=
  ⟨fun c rest => by rw [escNL_in_backslash, escNL_in_esc], by rfl⟩

/-- C10: the Scanner-Escaper is idempotent: a second pass over its output
changes nothing. -/
theorem escape_idempotent (s : Str) :
    escapeNewlinesInsideStrings (escapeNewlinesInsideStrings s) =
      escapeNewlinesInsideStrings s :=
  escNL_idem s false false

/-- C5: the Extractor yields no candidate exactly when the text has no
open brace, or no close brace, or the last close brace does not strictly
follow the first open brace; otherwise it yields the inclusive substring
from the first open brace through the last close brace. -/
theorem extractor_characterization (text : Str) :
    (firstIdx '{' text = none ↔ ¬ '{' ∈ text)
    ∧ (lastIdx '}' text = none ↔ ¬ '}' ∈ text)
    ∧ (extractJsonObject text = none ↔
        (firstIdx '{' text = none ∨ lastIdx '}' text = none ∨
          ∃ s e, firstIdx '{' text = some s ∧ lastIdx '}' text = some e ∧ e ≤ s))
    ∧ (∀ s e, firstIdx '{' text = some s → lastIdx '}' text = some e → s < e →
        extractJsonObject text = some ((text.drop s).take (e + 1 - s))) := by
  refine ⟨firstIdx_eq_none_iff '{' text, lastIdx_eq_none_iff '}' text, ?_, ?_⟩
  · unfold extractJsonObject
    cases hf : firstIdx '{' text with
    | none => simp
    | some s =>
      cases hl : lastIdx '}' text with
      | none => simp
      | some e =>
        dsimp only []
        by_cases hle : e ≤ s
        · rw [if_pos hle]
          simp [hle]
        · rw [if_neg hle]
          simp [hle]
  · intro s e hs he hlt
    unfold extractJsonObject
    rw [hs, he]
    dsimp only []
    rw [if_neg (Nat.not_le.mpr hlt)]

/-- C5 witness: extraction on a concrete text with surrounding prose. -/
theorem extractor_characterization_witness :
    extractJsonObject ['x', '{', '1', '}'] =
      some (((['x', '{', '1', '}'] : Str).drop 1).take (3 + 1 - 1)) :=
  (extractor_characterization ['x', '{', '1', '}']).2.2.2 1 3 (by rfl) (by rfl)
    (by decide)

/-- C6: the Sanitizer's trailing-comma rule removes exactly the commas
that are followed by whitespace only and then a closing brace or bracket:
the comma count drops by precisely the number of such commas, the output
is a subsequence of the input, and the spec's example loses its trailing
comma. -/
theorem sanitizer_removes_trailing_commas :
    (∀ l : Str, List.count ',' l =
      List.count ',' (removeTrailingCommas l) + trailingCommaCount l)
    ∧ (∀ l : Str, (removeTrailingCommas l).Sublist l)
    ∧ sanitizeCommonBreakers exTrailing = exTrailingOut :=
  ⟨fun l => rtcF_count l.length l (Nat.le_refl _),
   fun l => rtcF_sublist l.length l, by rfl⟩

/-- C7 counterexample: a carriage return inside a string is dropped, so
the output can be shorter than the input. -/
theorem escape_length_counterexample :
    escapeNewlinesInsideStrings ['"', '\r'] = ['"']
    ∧ ¬ (['"', '\r'] : Str).length ≤ (escapeNewlinesInsideStrings ['"', '\r']).length :=
  ⟨by rfl, by decide⟩

/-- C7 (amended): the output of the Scanner-Escaper is at least as long as
the input minus the number of carriage returns; when the input has no
carriage return it is at least as long as the input; any block of
characters scanned outside string context is copied through unchanged in
order, as on the spec's irregular-whitespace example. -/
theorem escape_length_and_outside_preserved :
    (∀ (l : Str) (inS esc : Bool),
      l.length ≤ (escNL l inS esc).length + List.count '\r' l)
    ∧ (∀ l : Str, ¬ '\r' ∈ l → l.length ≤ (escapeNewlinesInsideStrings l).length)
    ∧ (∀ (p t : Str) (esc : Bool), (∀ c ∈ p, ¬ c = '"') →
        escNL (p ++ t) false esc = p ++ escNL t false esc)
    ∧ escapeNewlinesInsideStrings exWs = exWs := by
  refine ⟨escNL_length, ?_, ?_, by rfl⟩
  · intro l hl
    have h0 := escNL_length l false false
    rw [List.count_eq_zero.mpr hl] at h0
    simpa using h0
  · intro p
    induction p with
    | nil => intro t esc h; rfl
    | cons c q ih =>
      intro t esc h
      rw [List.cons_append, escNL_out_cons _ _ _ (h c (List.mem_cons_self c q)),
        ih t esc fun d hd => h d (List.mem_cons_of_mem c hd), List.cons_append]

/-- C7 witness: instances of the amended bounds on concrete inputs. -/
theorem escape_length_and_outside_preserved_witness :
    (['"', 'a'] : Str).length ≤ (escapeNewlinesInsideStrings ['"', 'a']).length
    ∧ escNL (['{', ' '] ++ ['"', 'x', '"']) false false =
        ['{', ' '] ++ escNL ['"', 'x', '"'] false false :=
  ⟨escape_length_and_outside_preserved.2.1 ['"', 'a'] (by decide),
   escape_length_and_outside_preserved.2.2.1 ['{', ' '] ['"', 'x', '"'] false
     (by decide)⟩

/-- C8 counterexample: on a successful Gemini response with two parts, the
part_000 variant returns only the first part's text, not the
concatenation of all parts. -/
theorem gemini_parts_counterexample :
    exGemini.error = none
    ∧ (candidateParts exGemini).length = 2
    ∧ geminiJsText exGemini = ['A', 'B']
    ∧ gemini0Text exGemini = ['A']
    ∧ ¬ gemini0Text exGemini = concatPartsSpec (candidateParts exGemini) :=
  ⟨rfl, rfl, rfl, rfl, by decide⟩

/-- C8 (amended): on every successful Gemini upstream response, the
gemini.js variant returns the concatenation of all parts' texts in order
with no separator, missing texts contributing the empty string, while the
part_000 variant returns only the first part's text; each handler wraps
its text in the envelope. -/
theorem gemini_text_variants (d : GeminiData) (h : d.error = none) :
    geminiJsText d = concatPartsSpec (candidateParts d)
    ∧ gemini0Text d = headTextD (candidateParts d)
    ∧ (geminiJsHandler "POST" (UpBehavior.ok d)).body =
        some (RespBody.envelope (geminiJsText d))
    ∧ (part000Handler "POST" (UpBehavior.ok d)).body =
        some (RespBody.envelope (gemini0Text d)) := by
  have h1 : ¬ ("POST" : String) = "OPTIONS" := by decide
  have h2 : ¬ ¬ ("POST" : String) = "POST" := by decide
  refine ⟨?_, ?_, ?_, ?_⟩
  · unfold geminiJsText
    generalize candidateParts d = ps
    induction ps with
    | nil => rfl
    | cons p ps ih => simp [concatPartsSpec, ih]
  · obtain ⟨err, cands⟩ := d
    cases cands with
    | none => rfl
    | some cs =>
      cases cs with
      | nil => rfl
      | cons c cs2 =>
        obtain ⟨content⟩ := c
        cases content with
        | none => rfl
        | some ct =>
          obtain ⟨parts⟩ := ct
          cases parts with
          | none => rfl
          | some ps =>
            cases ps with
            | nil => rfl
            | cons p ps2 => rfl
  · unfold geminiJsHandler
    rw [if_neg h1, if_neg h2]
    dsimp only []
    rw [h]
  · unfold part000Handler
    rw [if_neg h1, if_neg h2]
    dsimp only []
    rw [h]

/-- C8 witness: the amended statement on the concrete two-part response. -/
theorem gemini_text_variants_witness :
    geminiJsText exGemini = concatPartsSpec (candidateParts exGemini)
    ∧ gemini0Text exGemini = headTextD (candidateParts exGemini)
    ∧ (geminiJsHandler "POST" (UpBehavior.ok exGemini)).body =
        some (RespBody.envelope (geminiJsText exGemini))
    ∧ (part000Handler "POST" (UpBehavior.ok exGemini)).body =
        some (RespBody.envelope (gemini0Text exGemini)) :=
  gemini_text_variants exGemini rfl

/-- C9 counterexample: the part_001 OPTIONS response carries no
Content-Type header, and the gemini.js 405 response carries no
Access-Control-Allow-Origin header. -/
theorem headers_counterexample :
    ¬ ("Content-Type", "application/json") ∈
        (part001Handler "OPTIONS" (UpBehavior.ok (GroqData.mk none none))).headers
    ∧ ¬ ("Access-Control-Allow-Origin", "*") ∈
        (geminiJsHandler "GET" (UpBehavior.ok (GeminiData.mk none none))).headers := by
  decide

/-- C9 (amended): every POST-path response (200 success, 400 vendor
error, 500 exception) of all three handlers carries both the CORS and the
Content-Type header, and the part_001 405 response carries both as well;
the OPTIONS responses of all three handlers carry the CORS header but no
Content-Type; and every 405 response of the gemini.js and part_000
handlers carries Content-Type but not the CORS header. -/
theorem headers_amended :
    (∀ (m : String) (up : UpBehavior GroqData), ¬ m = "OPTIONS" →
      hasBothHeaders (part001Handler m up))
    ∧ (∀ up : UpBehavior GeminiData,
        hasBothHeaders (geminiJsHandler "POST" up)
        ∧ hasBothHeaders (part000Handler "POST" up))
    ∧ (∀ (upG : UpBehavior GroqData) (upM : UpBehavior GeminiData),
        ("Access-Control-Allow-Origin", "*") ∈ (part001Handler "OPTIONS" upG).headers
        ∧ ("Access-Control-Allow-Origin", "*") ∈ (geminiJsHandler "OPTIONS" upM).headers
        ∧ ("Access-Control-Allow-Origin", "*") ∈ (part000Handler "OPTIONS" upM).headers
        ∧ ¬ ("Content-Type", "application/json") ∈
            (part001Handler "OPTIONS" upG).headers
        ∧ ¬ ("Content-Type", "application/json") ∈
            (geminiJsHandler "OPTIONS" upM).headers
        ∧ ¬ ("Content-Type", "application/json") ∈
            (part000Handler "OPTIONS" upM).headers)
    ∧ (∀ (m : String) (upM : UpBehavior GeminiData), ¬ m = "OPTIONS" → ¬ m = "POST" →
        (geminiJsHandler m upM).status = 405
        ∧ ("Content-Type", "application/json") ∈ (geminiJsHandler m upM).headers
        ∧ ¬ ("Access-Control-Allow-Origin", "*") ∈ (geminiJsHandler m upM).headers
        ∧ (part000Handler m upM).status = 405
        ∧ ("Content-Type", "application/json") ∈ (part000Handler m upM).headers
        ∧ ¬ ("Access-Control-Allow-Origin", "*") ∈ (part000Handler m upM).headers) := by
  have h2 : ¬ ¬ ("POST" : String) = "POST" := by decide
  refine ⟨?_, ?_, ?_, ?_⟩
  · intro m up hm
    unfold part001Handler
    rw [if_neg hm]
    by_cases hp : m = "POST"
    · rw [if_neg (not_not_intro hp)]
      cases up with
      | threw msg => exact ⟨by simp, by simp⟩
      | ok data =>
        dsimp only []
        cases data.error with
        | some e => exact ⟨by simp, by simp⟩
        | none =>
          dsimp only []
          cases repairOutcome (groqRawText data) with
          | parsed v => exact ⟨by simp, by simp⟩
          | fallback raw => exact ⟨by simp, by simp⟩
    · rw [if_pos hp]
      exact ⟨by simp, by simp⟩
  · intro up
    constructor
    · unfold geminiJsHandler
      rw [if_neg (by decide : ¬ ("POST" : String) = "OPTIONS"), if_neg h2]
      cases up with
      | threw msg => exact ⟨by simp, by simp⟩
      | ok d =>
        dsimp only []
        cases d.error with
        | some e => exact ⟨by simp, by simp⟩
        | none => exact ⟨by simp, by simp⟩
    · unfold part000Handler
      rw [if_neg (by decide : ¬ ("POST" : String) = "OPTIONS"), if_neg h2]
      cases up with
      | threw msg => exact ⟨by simp, by simp⟩
      | ok d =>
        dsimp only []
        cases d.error with
        | some e => exact ⟨by simp, by simp⟩
        | none => exact ⟨by simp, by simp⟩
  · intro upG upM
    refine ⟨?_, ?_, ?_, ?_, ?_, ?_⟩
    · unfold part001Handler
      rw [if_pos rfl]
      simp
    · unfold geminiJsHandler
      rw [if_pos rfl]
      simp
    · unfold part000Handler
      rw [if_pos rfl]
      simp
    · unfold part001Handler
      rw [if_pos rfl]
      decide
    · unfold geminiJsHandler
      rw [if_pos rfl]
      decide
    · unfold part000Handler
      rw [if_pos rfl]
      decide
  · intro m upM hmo hmp
    unfold geminiJsHandler part000Handler
    simp only [if_neg hmo, if_pos hmp]
    refine ⟨trivial, by decide, by decide, trivial, by decide, by decide⟩

/-- C9 witness: the amended claim applied at the 405 branch of part_001,
the POST branch of gemini.js, and the 405 branch of gemini.js. -/
theorem headers_amended_witness :
    hasBothHeaders (part001Handler "GET" (UpBehavior.ok (GroqData.mk none none)))
    ∧ hasBothHeaders (geminiJsHandler "POST"
        (UpBehavior.ok (GeminiData.mk none none)))
    ∧ (geminiJsHandler "GET" (UpBehavior.ok (GeminiData.mk none none))).status = 405 :=
  ⟨headers_amended.1 "GET" (UpBehavior.ok (GroqData.mk none none)) (by decide),
   (headers_amended.2.1 (UpBehavior.ok (GeminiData.mk none none))).1,
   (headers_amended.2.2.2 "GET" (UpBehavior.ok (GeminiData.mk none none))
     (by decide) (by decide)).1⟩
